import Mathlib

/-!
Verification development for the Journal Officiel segmentation pipeline
(`src/chunk/segment_json.py` and `src/chunk/segment_json_arretes.py`).

The Python sources are shallowly embedded over `List Char`.  Regular
expressions used by the code are compiled here into explicit scanning
functions with Python `re` semantics (leftmost match, greedy quantifiers
with the backtracking the concrete patterns need, non-overlapping
`finditer`/`re.split` scans that resume after each match).
-/

namespace Seg

/-- Lowercasing as `str.lower` acts on the characters appearing in the
segmentation keywords (ASCII letters plus the accented capitals used in
the French instrument-type keywords). -/
def charLower (c : Char) : Char :=
  match c with
  | 'É' => 'é'
  | 'È' => 'è'
  | 'Ê' => 'ê'
  | 'À' => 'à'
  | 'Â' => 'â'
  | 'Î' => 'î'
  | 'Ô' => 'ô'
  | 'Û' => 'û'
  | 'Ç' => 'ç'
  | _ => if 'A' ≤ c ∧ c ≤ 'Z' then Char.ofNat (c.toNat + 32) else c

/-- Whitespace recognised by Python `\s` (ASCII) and `str.strip`. -/
def isSpaceCh (c : Char) : Bool :=
  c == ' ' || c == '\t' || c == '\n' || c == '\r' || c == Char.ofNat 11 || c == Char.ofNat 12

/-- Python slice `l[a:b]` for `0 ≤ a ≤ b` (clamping at the ends). -/
def sliceL (l : List Char) (a b : Nat) : List Char := (l.take b).drop a

/-- Does `l` start with the literal `pat` (case sensitive)? -/
def listStartsWith : List Char → List Char → Bool
  | [], _ => true
  | _ :: _, [] => false
  | p :: ps, c :: cs => p == c && listStartsWith ps cs

/-- Does `l` start with the literal `pat` (pattern stored lowercase,
text lowered on the fly), the `re.IGNORECASE` comparison. -/
def listStartsWithCI : List Char → List Char → Bool
  | [], _ => true
  | _ :: _, [] => false
  | p :: ps, c :: cs => p == charLower c && listStartsWithCI ps cs

/-- Python `pat in l` (substring containment). -/
def containsSub (pat : List Char) : List Char → Bool
  | [] => listStartsWith pat []
  | c :: rest => listStartsWith pat (c :: rest) || containsSub pat rest

/-- Index of the first occurrence of `pat` in `l`, Python `l.find(pat)`. -/
def firstIdxOfSub (pat : List Char) : List Char → Option Nat
  | [] => if listStartsWith pat [] then some 0 else none
  | c :: rest =>
    if listStartsWith pat (c :: rest) then some 0
    else (firstIdxOfSub pat rest).map (· + 1)

/-- Python `str.strip()`. -/
def stripL (l : List Char) : List Char :=
  ((l.dropWhile (fun c => isSpaceCh c)).reverse.dropWhile (fun c => isSpaceCh c)).reverse

/-- Python `str.rstrip(s)`: drop trailing characters belonging to `s`. -/
def rstripSet (l : List Char) (s : List Char) : List Char :=
  (l.reverse.dropWhile (fun c => s.contains c)).reverse

/-- Numeric value of a digit string, as Python `int` on `\d+`. -/
def digitsToNat (ds : List Char) : Nat :=
  ds.foldl (fun a c => a * 10 + (c.toNat - 48)) 0

/-! ## Page markers: `re.findall(r'==== PAGE (\d+) ====', text)` -/

/-- The literal opening of a page marker. -/
def markerOpen : List Char := ['=', '=', '=', '=', ' ', 'P', 'A', 'G', 'E', ' ']

/-- The literal closing of a page marker. -/
def markerClose : List Char := [' ', '=', '=', '=', '=']

/-- Remove a literal prefix, failing when it is not there. -/
def dropPrefixQ : List Char → List Char → Option (List Char)
  | [], l => some l
  | _ :: _, [] => none
  | p :: ps, c :: cs => if p = c then dropPrefixQ ps cs else none

/-- Match `==== PAGE (\d+) ====` at the head of `l`; returns the page
number and the length of the whole match. -/
def matchMarkerAt (l : List Char) : Option (Nat × Nat) :=
  match dropPrefixQ markerOpen l with
  | none => none
  | some r1 =>
    let ds := r1.takeWhile Char.isDigit
    if ds = [] then none
    else
      match dropPrefixQ markerClose (r1.dropWhile Char.isDigit) with
      | none => none
      | some _ => some (digitsToNat ds, 15 + ds.length)

/-- Scan for page markers with a skip counter: while `skip > 0` the
scanner is inside a previous match and does not attempt a new one.  This
is `re.finditer`'s non-overlapping scan, resuming after each match. -/
def scanMarkersAux : List Char → Nat → List Nat
  | [], _ => []
  | _ :: rest, skip + 1 => scanMarkersAux rest skip
  | c :: rest, 0 =>
    match matchMarkerAt (c :: rest) with
    | some (v, n) => v :: scanMarkersAux rest (n - 1)
    | none => scanMarkersAux rest 0

/-- All page numbers announced in `l`, in order:
`re.findall(r'==== PAGE (\d+) ====', l)`. -/
def scanMarkers (l : List Char) : List Nat := scanMarkersAux l 0

/-- `DocumentSegmenter.extract_page_number`: the most recent page number
announced in `text_before`, falling back to `current_page`. -/
def extract_page_number (current_page : Nat) (text_before : List Char) : Nat :=
  match (scanMarkers text_before).getLast? with
  | some v => v
  | none => current_page

/-- The page-attribution function of the spec: the page number most
recently announced before `offset` (the segmenter calls
`extract_page_number` on `full_text[:start]` with `current_page = 1`). -/
def pageIndex (text : List Char) (offset : Nat) : Nat :=
  extract_page_number 1 (text.take offset)

/-! ## Separators: `re.finditer(r'————+', full_text)`

A match is a maximal run of at least four em-dashes; the scan resumes
after each match. -/

/-- Separator scan with skip counter (inside-match positions are not
retried, as in `finditer`). -/
def findSepAux : List Char → Nat → Nat → List (Nat × Nat)
  | [], _, _ => []
  | _ :: rest, pos, skip + 1 => findSepAux rest (pos + 1) skip
  | c :: rest, pos, 0 =>
    if c = '—' then
      let n := 1 + (rest.takeWhile (fun d => d == '—')).length
      if 4 ≤ n then (pos, pos + n) :: findSepAux rest (pos + 1) (n - 1)
      else findSepAux rest (pos + 1) (n - 1)
    else findSepAux rest (pos + 1) 0

/-- All `(start, end)` spans of title separators in the transcript. -/
def findSeparators (l : List Char) : List (Nat × Nat) := findSepAux l 0 0

/-! ## Title patterns of `DocumentSegmenter.find_all_documents`

Each pattern is a sequence of keywords separated by `\s+`, the last
keyword directly followed by the tail `[^\n]+(?:\n[^\n]+)*` (rest of
line plus following non-empty lines).  All matching is `re.IGNORECASE`. -/

/-- Length of the greedy tail `[^\n]+(?:\n[^\n]+)*` starting at `l`
(the caller guarantees the first character is not a newline). -/
def titleTailAux : List Char → Nat
  | [] => 0
  | c :: rest =>
    if c = '\n' then
      match rest with
      | [] => 0
      | d :: _ => if d = '\n' then 0 else 1 + titleTailAux rest
    else 1 + titleTailAux rest

/-- Match the title tail `[^\n]+(?:\n[^\n]+)*` at the head of `l`. -/
def matchTitleTail (l : List Char) : Option Nat :=
  match l with
  | [] => none
  | c :: _ => if c = '\n' then none else some (titleTailAux l)

/-- Count of leading whitespace, the greedy `\s*`. -/
def wsCnt (l : List Char) : Nat := (l.takeWhile (fun c => isSpaceCh c)).length

/-- Match `(\s+ word)*` then the title tail; returns consumed length. -/
def matchRestWords : List (List Char) → List Char → Option Nat
  | [], l => matchTitleTail l
  | w :: ws, l =>
    let k := wsCnt l
    if k = 0 then none
    else if listStartsWithCI w (l.drop k) then
      (matchRestWords ws (l.drop (k + w.length))).map (fun n => k + w.length + n)
    else none

/-- Match one full title pattern (keyword list) at the head of `l`. -/
def matchPatAt (ws : List (List Char)) (l : List Char) : Option Nat :=
  match ws with
  | [] => none
  | w :: rest =>
    if listStartsWithCI w l then
      (matchRestWords rest (l.drop w.length)).map (fun n => w.length + n)
    else none

/-- `re.finditer` for a title pattern: leftmost matches, resuming after
each match; returns `(start, end)` pairs relative to `l`. -/
def finditerAux (pw : List (List Char)) : List Char → Nat → Nat → List (Nat × Nat)
  | [], _, _ => []
  | _ :: rest, pos, skip + 1 => finditerAux pw rest (pos + 1) skip
  | c :: rest, pos, 0 =>
    match matchPatAt pw (c :: rest) with
    | some n => (pos, pos + n) :: finditerAux pw rest (pos + 1) (n - 1)
    | none => finditerAux pw rest (pos + 1) 0

/-- All matches of one title pattern in `l`. -/
def finditerPat (pw : List (List Char)) (l : List Char) : List (Nat × Nat) :=
  finditerAux pw l 0 0

/-- The five title patterns, in the priority order of the Python list. -/
def titlePatterns : List (List (List Char)) :=
  [["décret".toList, "présidentiel".toList, "n°".toList],
   ["décret".toList, "exécutif".toList, "n°".toList],
   ["décret".toList, "législatif".toList, "n°".toList],
   ["arrêté".toList, "interministériel".toList, "du".toList],
   ["arrêté".toList, "du".toList]]

/-- Walk the pattern list in order; for the first pattern with any match
in the window take the last match (`matches[-1]`), as the Python loop
with its `break` does. -/
def titleSearchIn : List (List (List Char)) → List Char → Option (Nat × Nat)
  | [], _ => none
  | p :: ps, w =>
    match (finditerPat p w).getLast? with
    | some m => some m
    | none => titleSearchIn ps w

/-- Title search over the five patterns. -/
def titleSearch (w : List Char) : Option (Nat × Nat) := titleSearchIn titlePatterns w

/-! ## Document assembly (`find_all_documents`) -/

/-- Python stores `'Décret'` / `'Arrêté'`. -/
inductive DocType
  | decret
  | arrete
deriving DecidableEq, Repr, Inhabited

/-- One entry of the `documents` list built by `find_all_documents`. -/
structure DocInfo where
  dtype : DocType
  start : Nat
  title_end : Nat
  separator_pos : Nat
  title : List Char
deriving DecidableEq, Repr, Inhabited

/-- Split on newline characters, Python `str.split('\n')`. -/
def splitOnNLAux : List Char → List Char → List (List Char)
  | [], acc => [acc.reverse]
  | c :: rest, acc =>
    if c = '\n' then acc.reverse :: splitOnNLAux rest []
    else splitOnNLAux rest (c :: acc)

/-- `raw_title.split('\n')`. -/
def splitOnNL (l : List Char) : List (List Char) := splitOnNLAux l []

/-- Preamble markers that terminate the title (checked on the stripped
line with the case-sensitive `in` operator). -/
def titleStopMarkers : List (List Char) :=
  ["Vu ".toList, "Le Président".toList, "Le Premier".toList, "Sur le rapport".toList]

/-- The title-line cleaning loop: strip each line, stop at the first
line containing a preamble marker, skip empty lines. -/
def cleanTitleLines : List (List Char) → List (List Char)
  | [] => []
  | line :: rest =>
    let s := stripL line
    if titleStopMarkers.any (fun m => containsSub m s) then []
    else if s = [] then cleanTitleLines rest
    else s :: cleanTitleLines rest

/-- Python `' '.join(lines)`. -/
def joinWithSpace : List (List Char) → List Char
  | [] => []
  | [x] => x
  | x :: y :: rest => x ++ ' ' :: joinWithSpace (y :: rest)

/-- `clean_title` computation of `find_all_documents`. -/
def cleanTitle (raw : List Char) : List Char :=
  stripL (joinWithSpace (cleanTitleLines (splitOnNL raw)))

/-- `re.match(r'Décret', ...)` / `re.match(r'Arrêté', ...)` on the
stripped title text (prefix tests, `re.IGNORECASE`). -/
def docTypeOf (raw : List Char) : Option DocType :=
  if listStartsWithCI "décret".toList raw then some DocType.decret
  else if listStartsWithCI "arrêté".toList raw then some DocType.arrete
  else none

/-- The per-separator body of the `find_all_documents` loop: open the
2000-character lookback window, search the title patterns, build the
document record (or skip the separator when nothing matches). -/
def docForSep (full_text : List Char) (se : Nat × Nat) : Option DocInfo :=
  let base := se.1 - 2000
  let window := sliceL full_text base se.1
  match titleSearch window with
  | none => none
  | some m =>
    let raw := stripL (sliceL window m.1 m.2)
    match docTypeOf raw with
    | none => none
    | some ty =>
      some { dtype := ty, start := base + m.1, title_end := base + m.2,
             separator_pos := se.2, title := cleanTitle raw }

/-- Stable insertion by `start` (Python `list.sort(key=...)` is stable). -/
def insertByStart (x : DocInfo) : List DocInfo → List DocInfo
  | [] => [x]
  | y :: l => if x.start ≤ y.start then x :: y :: l else y :: insertByStart x l

/-- `documents.sort(key=lambda x: x['start'])`. -/
def sortByStart : List DocInfo → List DocInfo
  | [] => []
  | x :: l => insertByStart x (sortByStart l)

/-- The duplicate-removal loop keyed on `separator_pos` (`last_sep`
starts as a sentinel and is updated only when a document is kept). -/
def dedupBySep : List DocInfo → Option Nat → List DocInfo
  | [], _ => []
  | d :: rest, last =>
    if some d.separator_pos = last then dedupBySep rest last
    else d :: dedupBySep rest (some d.separator_pos)

/-- `DocumentSegmenter.find_all_documents`. -/
def find_all_documents (full_text : List Char) : List DocInfo :=
  dedupBySep (sortByStart ((findSeparators full_text).filterMap (docForSep full_text))) none

/-- `DocumentSegmenter.extract_document_body`.  The Python guard is
`next_doc_start if next_doc_start else len(full_text)`, which treats
both `None` and `0` as absent. -/
def extract_document_body (full_text : List Char) (doc : DocInfo)
    (next_doc_start : Option Nat) : List Char :=
  let body_start := doc.separator_pos
  let body_end :=
    match next_doc_start with
    | some n => if n ≠ 0 then n else full_text.length
    | none => full_text.length
  sliceL full_text body_start body_end

/-! ## Preamble/operative split (`split_preamble_and_articles`) -/

/-- Match the operative trigger at the head of `l`:
`Décrète\s*:` for decrees, `Arrête(?:nt)?\s*:` for orders (both
`re.IGNORECASE`; the optional `nt` is tried greedily first). -/
def matchTriggerAt (ty : DocType) (l : List Char) : Option Nat :=
  match ty with
  | DocType.decret =>
    if listStartsWithCI "décrète".toList l then
      let k := wsCnt (l.drop 7)
      if (l.drop (7 + k)).head? = some ':' then some (7 + k + 1) else none
    else none
  | DocType.arrete =>
    if listStartsWithCI "arrête".toList l then
      let r := l.drop 6
      if listStartsWithCI "nt".toList r then
        let k := wsCnt (r.drop 2)
        if (r.drop (2 + k)).head? = some ':' then some (6 + 2 + k + 1)
        else
          let k2 := wsCnt r
          if (r.drop k2).head? = some ':' then some (6 + k2 + 1) else none
      else
        let k2 := wsCnt r
        if (r.drop k2).head? = some ':' then some (6 + k2 + 1) else none
    else none

/-- `re.search`: the leftmost position where `f` matches, with the
match length; `none` when no position matches. -/
def scanFirst (f : List Char → Option Nat) : List Char → Option (Nat × Nat)
  | [] => none
  | c :: rest =>
    match f (c :: rest) with
    | some n => some (0, n)
    | none => (scanFirst f rest).map (fun p => (p.1 + 1, p.2))

/-- First occurrence of the operative trigger in the body. -/
def findTrigger (ty : DocType) (body : List Char) : Option (Nat × Nat) :=
  scanFirst (matchTriggerAt ty) body

/-- Match `Article\s+(?:1er|\d+)` at the head of `l` (only the start
position of this fallback match is ever used by the caller). -/
def matchArtRefAt (l : List Char) : Option Nat :=
  if listStartsWithCI "article".toList l then
    let k := wsCnt (l.drop 7)
    if k = 0 then none
    else
      let r := l.drop (7 + k)
      if listStartsWithCI "1er".toList r then some (7 + k + 3)
      else
        match r.head? with
        | some d => if d.isDigit then some (7 + k + 1) else none
        | none => none
  else none

/-- First `Article …` reference in the body (fallback split point). -/
def findArticleRef (body : List Char) : Option (Nat × Nat) :=
  scanFirst matchArtRefAt body

/-- `DocumentSegmenter.split_preamble_and_articles`: trigger first,
then first article header, else the whole body is preamble. -/
def split_preamble_and_articles (body_text : List Char) (ty : DocType) :
    List Char × List Char :=
  match findTrigger ty body_text with
  | some m => (stripL (body_text.take m.1), stripL (body_text.drop (m.1 + m.2)))
  | none =>
    match findArticleRef body_text with
    | some m => (stripL (body_text.take m.1), stripL (body_text.drop m.1))
    | none => (body_text, [])

/-! ## Article extraction (`extract_articles`)

The Python code wraps `article_pattern` — which already carries a
capture group — in a second group before calling `re.split`, so each
header appears twice in the parts list. -/

/-- Match `\s*[.—–-]` at the head of `l`. -/
def matchHeaderPunct (l : List Char) : Option Nat :=
  let k := wsCnt l
  match (l.drop k).head? with
  | some c => if c = '.' ∨ c = '—' ∨ c = '–' ∨ c = '-' then some (k + 1) else none
  | none => none

/-- Match `\.?\s*[.—–-]` (greedy optional dot, with backtracking). -/
def matchHeaderTail (l : List Char) : Option Nat :=
  match l with
  | '.' :: r =>
    match matchHeaderPunct r with
    | some n => some (1 + n)
    | none => matchHeaderPunct l
  | _ => matchHeaderPunct l

/-- Match `(?:1er|\d+(?:er)?)` followed by the header tail, with the
alternation/optional backtracking of the regex engine. -/
def matchNumTail (l : List Char) : Option Nat :=
  let try1er : Option Nat :=
    if listStartsWithCI "1er".toList l then (matchHeaderTail (l.drop 3)).map (fun n => 3 + n)
    else none
  match try1er with
  | some n => some n
  | none =>
    let ds := l.takeWhile Char.isDigit
    if ds = [] then none
    else
      let r := l.drop ds.length
      if listStartsWithCI "er".toList r then
        match matchHeaderTail (r.drop 2) with
        | some n => some (ds.length + 2 + n)
        | none => (matchHeaderTail r).map (fun n => ds.length + n)
      else (matchHeaderTail r).map (fun n => ds.length + n)

/-- Match `(?:Article|Art\.?)\s+` (with the backtracking the
alternation and the optional dot need). -/
def matchHeaderKw (l : List Char) : Option Nat :=
  let tryArt : Option Nat :=
    if listStartsWithCI "art".toList l then
      let r := l.drop 3
      match r.head? with
      | some '.' =>
        let k := wsCnt (r.drop 1)
        if k ≠ 0 then some (4 + k)
        else
          let k2 := wsCnt r
          if k2 ≠ 0 then some (3 + k2) else none
      | _ =>
        let k2 := wsCnt r
        if k2 ≠ 0 then some (3 + k2) else none
    else none
  if listStartsWithCI "article".toList l then
    let k := wsCnt (l.drop 7)
    if k ≠ 0 then some (7 + k) else tryArt
  else tryArt

/-- Match the full article-header pattern
`(?:Article|Art\.?)\s+(?:1er|\d+(?:er)?)\.?\s*[.—–-]` at the head. -/
def matchArticleHeaderAt (l : List Char) : Option Nat :=
  match matchHeaderKw l with
  | none => none
  | some n => (matchNumTail (l.drop n)).map (fun m => n + m)

/-- `re.split` with the doubly-parenthesized header pattern: between
consecutive text pieces the header is inserted twice (once per capture
group). -/
def reSplitAux : List Char → Nat → List Char → List (List Char)
  | [], _, acc => [acc.reverse]
  | _ :: rest, skip + 1, acc => reSplitAux rest skip acc
  | c :: rest, 0, acc =>
    match matchArticleHeaderAt (c :: rest) with
    | some n =>
      let h := (c :: rest).take n
      acc.reverse :: h :: h :: reSplitAux rest (n - 1) []
    | none => reSplitAux rest 0 (c :: acc)

/-- The `parts` list of `extract_articles`. -/
def reSplitParts (l : List Char) : List (List Char) := reSplitAux l 0 []

/-- One extracted article. -/
structure Article where
  header : List Char
  content : List Char
deriving DecidableEq, Repr, Inhabited

/-- The `while` loop pairing: consume `parts[1:]` two at a time,
stopping when fewer than two entries remain. -/
def pairs2 : List (List Char) → List (List Char × List Char)
  | a :: b :: rest => (a, b) :: pairs2 rest
  | _ => []

/-- The signature/end markers truncating article content, in loop order. -/
def endMarkers : List (List Char) :=
  ["Fait à Alger".toList, "Fait à ".toList, "Le Président de la République".toList,
   "Le Premier ministre".toList, "Abdelmadjid TEBBOUNE".toList,
   "Mohamed Ennadir LARBAOUI".toList, "Arrêtent :".toList, "Décrète :".toList]

/-- Character class of `re.sub(r'[.—\-–\s]+$', '', raw_header)`. -/
def headerRstripChars : List Char :=
  ['.', '—', '-', '–', ' ', '\t', '\n', '\r', Char.ofNat 11, Char.ofNat 12]

/-- Characters of `content.rstrip(' .—–-')`. -/
def contentRstripChars : List Char := [' ', '.', '—', '–', '-']

/-- `if end_marker in content: content = content.split(end_marker)[0].strip()`. -/
def truncAtMarker (m : List Char) (c : List Char) : List Char :=
  if containsSub m c then
    match firstIdxOfSub m c with
    | some i => stripL (c.take i)
    | none => c
  else c

/-- One iteration of the pairing loop body. -/
def processPair (p : List Char × List Char) : Option Article :=
  let raw_header := stripL p.1
  let content0 := stripL p.2
  let header_clean := stripL (rstripSet raw_header headerRstripChars)
  let content1 := endMarkers.foldl (fun c m => truncAtMarker m c) content0
  let content2 := rstripSet content1 contentRstripChars
  if content2 ≠ [] ∧ 20 < content2.length then
    some { header := header_clean, content := content2 }
  else none

/-- `DocumentSegmenter.extract_articles`. -/
def extract_articles (articles_text : List Char) : List Article :=
  (pairs2 ((reSplitParts articles_text).drop 1)).filterMap processPair

/-! ## `clean_text` -/

/-- `re.sub(r' +', ' ', text)`: collapse runs of spaces. -/
def collapseSpacesAux : List Char → Bool → List Char
  | [], _ => []
  | c :: rest, inRun =>
    if c = ' ' then
      if inRun then collapseSpacesAux rest true
      else ' ' :: collapseSpacesAux rest true
    else c :: collapseSpacesAux rest false

/-- Length of a leading newline run. -/
def nlRun (l : List Char) : Nat := (l.takeWhile (fun c => c == '\n')).length

/-- One attempt of the second `\s*` at width `b`: a newline must follow,
and the final `\n+` is the maximal newline run from there. -/
def tryBAttempt (r : List Char) (b : Nat) : Option Nat :=
  match (r.drop b).head? with
  | some c => if c = '\n' then some (b + nlRun (r.drop b)) else none
  | none => none

/-- Greedy backtracking over the second `\s*`, from `b` downwards. -/
def tryB (r : List Char) : Nat → Option Nat
  | 0 => tryBAttempt r 0
  | b + 1 =>
    match tryBAttempt r (b + 1) with
    | some n => some n
    | none => tryB r b

/-- One attempt of the first `\s*` at width `a`. -/
def tryAAttempt (r : List Char) (a : Nat) : Option Nat :=
  match (r.drop a).head? with
  | some c =>
    if c = '\n' then
      (tryB (r.drop (a + 1)) (wsCnt (r.drop (a + 1)))).map (fun m => a + 1 + m)
    else none
  | none => none

/-- Greedy backtracking over the first `\s*`, from `a` downwards. -/
def tryA (r : List Char) : Nat → Option Nat
  | 0 => tryAAttempt r 0
  | a + 1 =>
    match tryAAttempt r (a + 1) with
    | some n => some n
    | none => tryA r a

/-- Match `\n\s*\n\s*\n+` at the head of `l` (Python greedy semantics). -/
def matchBlankRunAt (l : List Char) : Option Nat :=
  match l with
  | '\n' :: r => (tryA r (wsCnt r)).map (fun m => 1 + m)
  | _ => none

/-- `re.sub(r'\n\s*\n\s*\n+', '\n\n', text)`: global replacement,
resuming after each replaced region. -/
def cleanSub2Aux : List Char → Nat → List Char
  | [], _ => []
  | _ :: rest, skip + 1 => cleanSub2Aux rest skip
  | c :: rest, 0 =>
    match matchBlankRunAt (c :: rest) with
    | some n => '\n' :: '\n' :: cleanSub2Aux rest (n - 1)
    | none => c :: cleanSub2Aux rest 0

/-- `DocumentSegmenter.clean_text`. -/
def clean_text (l : List Char) : List Char :=
  stripL (cleanSub2Aux (collapseSpacesAux l false) 0)

/-! ## Chunk assembly (`segment_file`) -/

/-- One emitted chunk record. -/
structure Chunk where
  source_file : List Char
  document_type : DocType
  document_title : List Char
  page_number : Nat
  article_header : List Char
  article_content : List Char
  full_context : List Char
deriving DecidableEq, Repr, Inhabited

/-- The segmenter object state: `self.current_page`, set to `1` in
`__init__` and never reassigned anywhere in the class. -/
structure SegmenterState where
  current_page : Nat
deriving DecidableEq, Repr, Inhabited

/-- `DocumentSegmenter.__init__`. -/
def initSegmenter : SegmenterState := { current_page := 1 }

/-- `documents[idx + 1]['start'] if idx + 1 < len(documents) else None`. -/
def nextStartFor (docs : List DocInfo) (idx : Nat) : Option Nat :=
  match docs[idx + 1]? with
  | some d => some d.start
  | none => none

/-- The articles section handed to `extract_articles` for one document. -/
def articlesSectionFor (full_text : List Char) (doc : DocInfo) (next : Option Nat) :
    List Char :=
  (split_preamble_and_articles (extract_document_body full_text doc next) doc.dtype).2

/-- The chunks contributed by document `idx` in the `segment_file` loop. -/
def chunksForDoc (st : SegmenterState) (filename full_text : List Char)
    (docs : List DocInfo) (idx : Nat) : List Chunk :=
  match docs[idx]? with
  | none => []
  | some doc =>
    let next_start := nextStartFor docs idx
    let page_num := extract_page_number st.current_page (full_text.take doc.start)
    let title := clean_text doc.title
    let articles := extract_articles (articlesSectionFor full_text doc next_start)
    articles.map (fun a =>
      { source_file := filename, document_type := doc.dtype, document_title := title,
        page_number := page_num, article_header := a.header,
        article_content := clean_text a.content,
        full_context := title ++ '\n' :: '\n' :: (a.header ++ '\n' :: a.content) })

/-- `DocumentSegmenter.segment_file`, with the file I/O at the
boundary modelled away: the transcript text comes in as an argument and
the chunk list that would be serialized is returned, together with the
(unchanged) segmenter state. -/
def segment_file (st : SegmenterState) (filename full_text : List Char) :
    List Chunk × SegmenterState :=
  (((List.range (find_all_documents full_text).length).map
      (chunksForDoc st filename full_text (find_all_documents full_text))).flatten, st)

/-- The chunk list produced for one transcript by a fresh segmenter. -/
def segmentText (filename full_text : List Char) : List Chunk :=
  (segment_file initSegmenter filename full_text).1

/-! ## `segment_json_arretes.py` -/

/-- One anchor of `get_all_anchors`. -/
structure ArAnchor where
  start : Nat
  type_id : List Char
  is_arrete : Bool
deriving DecidableEq, Repr, Inhabited

/-- `re.sub(r'\s+', ' ', text)` with a run flag. -/
def collapseWsAux : List Char → Bool → List Char
  | [], _ => []
  | c :: rest, inRun =>
    if isSpaceCh c then
      if inRun then collapseWsAux rest true
      else ' ' :: collapseWsAux rest true
    else c :: collapseWsAux rest false

/-- `normalize_text` of `segment_json_arretes.py`. -/
def normalize_text (l : List Char) : List Char := stripL (collapseWsAux l false)

/-- The citation markers of the anti-citation filter (the second and
third entries differ only in the apostrophe codepoint). -/
def citationMarkers : List (List Char) :=
  ["vu le".toList, "vu l’".toList, "vu l\x27".toList,
   "modifiant l".toList, "complétant l".toList]

/-- `content[max(0, start-50):start].lower()`. -/
def arContext (content : List Char) (start : Nat) : List Char :=
  (sliceL content (start - 50) start).map charLower

/-- Does the 50-character context before `start` contain a citation
marker? -/
def arIsCitation (content : List Char) (start : Nat) : Bool :=
  citationMarkers.any (fun m => containsSub m (arContext content start))

/-- Python `s.split('\n')[0]`. -/
def takeFirstLine (l : List Char) : List Char := l.takeWhile (fun c => c != '\n')

/-- `get_all_anchors`.  The spans of `REGEX_ALL_STARTS.finditer`
(match start and match end) are supplied as the `cands` parameter; the
function embeds the identifier extraction, the anti-citation filter and
the `is_arrete` classification applied to each candidate. -/
def get_all_anchors (content : List Char) (cands : List (Nat × Nat)) : List ArAnchor :=
  cands.filterMap (fun cnd =>
    let start := cnd.1
    let text_id := normalize_text (takeFirstLine (sliceL content start (cnd.2 + 20)))
    if arIsCitation content start then none
    else some { start := start, type_id := text_id,
                is_arrete := listStartsWithCI "arrêté".toList text_id })

/-- Match `--- Page (\d+) ---` at the head (`re.IGNORECASE`), giving
the page number and the match length. -/
def matchDashMarkerAt (l : List Char) : Option (Nat × Nat) :=
  if listStartsWithCI "--- page ".toList l then
    let r1 := l.drop 9
    let ds := r1.takeWhile Char.isDigit
    if ds = [] then none
    else if listStartsWithCI " ---".toList (r1.drop ds.length) then
      some (digitsToNat ds, 9 + ds.length + 4)
    else none
  else none

/-- Scan for the `--- Page n ---` markers (`REGEX_PAGE_MARKER.finditer`). -/
def scanDashAux : List Char → Nat → List Nat
  | [], _ => []
  | _ :: rest, skip + 1 => scanDashAux rest skip
  | c :: rest, 0 =>
    match matchDashMarkerAt (c :: rest) with
    | some (v, n) => v :: scanDashAux rest (n - 1)
    | none => scanDashAux rest 0

/-- `find_page_number` of `segment_json_arretes.py`. -/
def find_page_number (content : List Char) (start_index : Nat) : Nat :=
  match (scanDashAux (content.take start_index) 0).getLast? with
  | some v => v
  | none => 1

/-- Match `--- Page \d+ ---` case-sensitively (the inline `re.sub`
pattern in `process_file` is compiled without flags). -/
def matchDashMarkerCS (l : List Char) : Option Nat :=
  if listStartsWith "--- Page ".toList l then
    let r1 := l.drop 9
    let ds := r1.takeWhile Char.isDigit
    if ds = [] then none
    else if listStartsWith " ---".toList (r1.drop ds.length) then some (9 + ds.length + 4)
    else none
  else none

/-- `re.sub(r"--- Page \d+ ---", "", raw_block)`. -/
def removePMAux : List Char → Nat → List Char
  | [], _ => []
  | _ :: rest, skip + 1 => removePMAux rest skip
  | c :: rest, 0 =>
    match matchDashMarkerCS (c :: rest) with
    | some n => removePMAux rest (n - 1)
    | none => c :: removePMAux rest 0

/-- One record of the `arretes_extracted` output list. -/
structure ArRecord where
  source : List Char
  journal_date : List Char
  page_start : Nat
  doc_type : List Char
  title_extract : List Char
  text : List Char
deriving DecidableEq, Repr, Inhabited

/-- One iteration of the `process_file` loop over anchor index `i`. -/
def arRecordFor (fname jdate content : List Char) (anchors : List ArAnchor) (i : Nat) :
    Option ArRecord :=
  match anchors[i]? with
  | none => none
  | some a =>
    if a.is_arrete then
      let endp :=
        match anchors[i + 1]? with
        | some b => b.start
        | none => content.length
      let clean_block := normalize_text (removePMAux (sliceL content a.start endp) 0)
      if clean_block.length < 50 then none
      else some { source := fname, journal_date := jdate,
                  page_start := find_page_number content a.start,
                  doc_type := "Arrêté".toList, title_extract := a.type_id,
                  text := clean_block }
    else none

/-- `process_file` of `segment_json_arretes.py` (the journal date, read
by a metadata regex from the file head, is passed in as `jdate`; the
candidate spans parameterize `REGEX_ALL_STARTS.finditer` as in
`get_all_anchors`). -/
def process_file (fname jdate content : List Char) (cands : List (Nat × Nat)) :
    List ArRecord :=
  (List.range (get_all_anchors content cands).length).filterMap
    (arRecordFor fname jdate content (get_all_anchors content cands))

/-! ## Derived observations used by the verification statements -/

/-- The body-span endpoint the segment loop uses for the instrument whose
successors are `rest`: the next instrument's `start` unless it is `0` or
absent (mirroring `extract_document_body`'s truthiness guard). -/
def spanEndOf (text : List Char) : List DocInfo → Nat
  | e :: _ => if e.start ≠ 0 then e.start else text.length
  | [] => text.length

/-- Membership of offset `k` in the union of the body spans of `docs`
(the spans the segment loop slices out of the transcript). -/
def coveredB (text : List Char) : List DocInfo → Nat → Bool
  | [], _ => false
  | d :: rest, k =>
    (decide (d.separator_pos ≤ k) && decide (k < spanEndOf text rest)) || coveredB text rest k

/-- The body spans of `docs`, in order, as the segment loop computes
them (start at `separator_pos`, end at the next instrument's start with
the truthiness guard, or at the end of the transcript). -/
def bodySpans (text : List Char) : List DocInfo → List (Nat × Nat)
  | [] => []
  | d :: rest => (d.separator_pos, spanEndOf text rest) :: bodySpans text rest

/-- Last element of a list with a default, as a fold. -/
def lastD (x : Nat) (l : List Nat) : Nat := l.foldl (fun _ v => v) x

/-! ## Concrete transcripts used by counterexamples and witnesses -/

/-- Two back-to-back orders separated by a blank line. -/
def exC1Text : List Char :=
  ("Arrêté du 2 mai 2024\n————\nVu X\nArrête :\nArticle 1er. — Contenu un.\n\nArrêté du 3 juin 2024\n————\nVu Y\nArrête :\nArt. 2. — Contenu deux.").toList

/-- A lookback window holding a decree keyword followed by an order
keyword, then the separator. -/
def exC4Text : List Char :=
  ("Décret exécutif n° 1 du 2 mai Arrêté du 5 mai ————x").toList

/-- One decree whose operative text holds no article header. -/
def exC6Text : List Char :=
  ("Décret exécutif n° 3 du 4 mai\n————\nVu la Constitution\nDécrète :\nDu texte sans articles ici.").toList

/-- An articles section whose single header survives the length filter
as its own content. -/
def exC7Text : List Char :=
  ("Préambule. Art. 123456789012345678. — Contenu réel suffisamment long pour être retenu.").toList

/-- A transcript announcing page 2 before page 1. -/
def exC8Text : List Char :=
  ("==== PAGE 2 ====a==== PAGE 1 ====b").toList

/-- A marker-free transcript yielding one chunk. -/
def exC10Text : List Char :=
  ("Décret exécutif n° 7 du 8 mai\n————\nDécrète :\nArticle 1er. — Premier contenu assez long ici.\nArt. 2. — Second contenu assez long aussi oui.").toList

/-- A source-file name for the witnesses. -/
def exFileName : List Char := ("f.txt").toList

/-- The document record the segmenter derives from `exC6Text`. -/
def c6Doc : DocInfo :=
  { dtype := DocType.decret, start := 0, title_end := 29, separator_pos := 34,
    title := ("Décret exécutif n° 3 du 4 mai").toList }

/-- The two document records the segmenter derives from `exC1Text`. -/
def c2WitnessDocs : List DocInfo :=
  [{ dtype := DocType.arrete, start := 0, title_end := 20, separator_pos := 25,
     title := ("Arrêté du 2 mai 2024").toList },
   { dtype := DocType.arrete, start := 68, title_end := 89, separator_pos := 94,
     title := ("Arrêté du 3 juin 2024").toList }]

/-- A body with a plural operative trigger. -/
def c5Body : List Char := ("Vu X Arrêtent : la suite du texte").toList

/-- The header that doubles as content in `exC7Text`. -/
def c7Header : List Char := ("Art. 123456789012345678").toList

/-- A forty-character transcript for the coverage witness. -/
def c1wText : List Char := List.replicate 40 'x'

/-- First instrument of the coverage witness. -/
def c1wD0 : DocInfo :=
  { dtype := DocType.arrete, start := 5, title_end := 8, separator_pos := 10, title := [] }

/-- Second instrument of the coverage witness. -/
def c1wD1 : DocInfo :=
  { dtype := DocType.arrete, start := 20, title_end := 23, separator_pos := 25, title := [] }

/-- A transcript whose candidate anchor sits right after a `Vu le`
citation context. -/
def exC3Text : List Char :=
  ("Vu le décret exécutif n° 24-10 du 5 mai 2024 fixant des choses et autres.").toList

/-- A transcript with nondecreasing page announcements. -/
def c8wText : List Char := ("==== PAGE 1 ====a==== PAGE 3 ====b").toList

end Seg

namespace Seg

/-! # Claim theorems -/

/-- Claim C2 (confirmed): for a sorted anchor list with strictly
increasing starts, the body of instrument `i` is exactly the transcript
slice from its `separator_pos` to the next instrument's `start`, and to
the end of the transcript for the last instrument. -/
theorem c2_body_span (full_text : List Char) (docs : List DocInfo) (i : Nat)
    (hi : i < docs.length)
    (hsorted : List.Pairwise (fun a b : DocInfo => a.start < b.start) docs) :
    (∀ h1 : i + 1 < docs.length,
      extract_document_body full_text docs[i] (nextStartFor docs i)
        = sliceL full_text docs[i].separator_pos docs[i + 1].start)
    ∧ (i + 1 = docs.length →
      extract_document_body full_text docs[i] (nextStartFor docs i)
        = sliceL full_text docs[i].separator_pos full_text.length) := by
  constructor
  · intro h1
    have hget : docs[i + 1]? = some docs[i + 1] := List.getElem?_eq_getElem h1
    have hpos : docs[i].start < docs[i + 1].start := by
      have h := List.pairwise_iff_get.mp hsorted ⟨i, hi⟩ ⟨i + 1, h1⟩ (by simp [Fin.lt_def])
      simpa using h
    have hne : docs[i + 1].start ≠ 0 := by omega
    simp [extract_document_body, nextStartFor, hget, hne]
  · intro h2
    have hget : docs[i + 1]? = none := List.getElem?_eq_none (by omega)
    simp [extract_document_body, nextStartFor, hget]

/-- Witness for C2 at the two instruments of `exC1Text`: the first body
runs from its separator end `25` to the second anchor's start `68`. -/
theorem c2_body_span_witness :
    extract_document_body exC1Text (c2WitnessDocs.get ⟨0, by decide⟩) (nextStartFor c2WitnessDocs 0)
      = sliceL exC1Text 25 68 := by
  have h := (c2_body_span exC1Text c2WitnessDocs 0 (by decide) (by decide)).1 (by decide)
  exact h

/-- Claim C5 (confirmed): the preamble/operative split fires on the
first operative trigger (the pattern accepts singular and plural verb
forms), falls back to the first article reference, and otherwise keeps
the whole body as preamble with empty operative text; the function is
total, so no case raises. -/
theorem c5_split_fallbacks (body : List Char) (ty : DocType) :
    (∀ s n, findTrigger ty body = some (s, n) →
      split_preamble_and_articles body ty = (stripL (body.take s), stripL (body.drop (s + n))))
    ∧ (findTrigger ty body = none → ∀ s n, findArticleRef body = some (s, n) →
      split_preamble_and_articles body ty = (stripL (body.take s), stripL (body.drop s)))
    ∧ (findTrigger ty body = none → findArticleRef body = none →
      split_preamble_and_articles body ty = (body, [])) := by
  refine ⟨?_, ?_, ?_⟩
  · intro s n h
    simp [split_preamble_and_articles, h]
  · intro h s n h2
    simp [split_preamble_and_articles, h, h2]
  · intro h h2
    simp [split_preamble_and_articles, h, h2]

/-- Witness for C5 on a plural-form trigger (`Arrêtent :`). -/
theorem c5_split_fallbacks_witness :
    split_preamble_and_articles c5Body DocType.arrete
      = (stripL (c5Body.take 5), stripL (c5Body.drop (5 + 10))) :=
  (c5_split_fallbacks c5Body DocType.arrete).1 5 10 (by decide)

/-- Counterexample to claim C6: on `exC6Text` the segmenter finds one
instrument, its articles section is non-empty, the article extractor
returns no articles, and the segmenter emits zero chunks — not the one
whole-text chunk the claim requires. -/
theorem c6_counterexample :
    (find_all_documents exC6Text).length = 1
    ∧ articlesSectionFor exC6Text ((find_all_documents exC6Text).getD 0 default)
        (nextStartFor (find_all_documents exC6Text) 0) ≠ []
    ∧ extract_articles (articlesSectionFor exC6Text ((find_all_documents exC6Text).getD 0 default)
        (nextStartFor (find_all_documents exC6Text) 0)) = []
    ∧ segmentText exFileName exC6Text = [] := by
  decide

/-- Claim C6 as amended: when the article extractor returns an empty
list for an instrument, the segment loop contributes zero chunks for
that instrument (its operative text is dropped, with no whole-text
fallback). -/
theorem c6_amended_zero_chunks (st : SegmenterState) (filename full_text : List Char)
    (docs : List DocInfo) (idx : Nat) (doc : DocInfo)
    (hdoc : docs[idx]? = some doc)
    (hempty : extract_articles (articlesSectionFor full_text doc (nextStartFor docs idx)) = []) :
    chunksForDoc st filename full_text docs idx = [] := by
  simp [chunksForDoc, hdoc, hempty]

/-- Witness for the amended C6 on the instrument of `exC6Text`. -/
theorem c6_amended_zero_chunks_witness :
    chunksForDoc initSegmenter exFileName exC6Text (find_all_documents exC6Text) 0 = [] :=
  c6_amended_zero_chunks initSegmenter exFileName exC6Text (find_all_documents exC6Text) 0 c6Doc
    (by decide) (by decide)

/-- Claim C7 (code bug): on `exC7Text` the extractor emits an article
whose content is its own header text — not the text running from the
header to the end — because `re.split` receives the article pattern
wrapped in a second capture group and returns every header twice,
pairing each header with its duplicate; the real content after the
header is dropped. -/
theorem c7_duplicated_header :
    extract_articles exC7Text = [{ header := c7Header, content := c7Header }]
    ∧ c7Header ≠ ("Contenu réel suffisamment long pour être retenu").toList := by
  decide

set_option maxRecDepth 8000 in
/-- Counterexample to claim C1: on `exC1Text` the segmenter derives two
instruments, the first anchor starts at offset `0`, yet offset `0` lies
in no body span, and the second instrument's anchor start `68` — an
interior point of `[first_anchor.start, len)` — also lies in no body
span: the union of the body spans is not `[first_anchor.start, len)`
and it has a gap between the consecutive spans. -/
theorem c1_counterexample :
    (find_all_documents exC1Text).length = 2
    ∧ ((find_all_documents exC1Text).getD 0 default).start = 0
    ∧ (0 : Nat) < exC1Text.length
    ∧ coveredB exC1Text (find_all_documents exC1Text) 0 = false
    ∧ ((find_all_documents exC1Text).getD 1 default).start = 68
    ∧ 68 < exC1Text.length
    ∧ coveredB exC1Text (find_all_documents exC1Text) 68 = false := by
  decide

/-- Adjacent separator/start bounds propagate down the list. -/
theorem chainSepBound (e : DocInfo) (rest : List DocInfo)
    (hadj : List.Chain' (fun a b : DocInfo => a.separator_pos ≤ b.start) (e :: rest))
    (hb : ∀ x ∈ e :: rest, x.start ≤ x.separator_pos) :
    ∀ x ∈ rest, e.separator_pos ≤ x.start := by
  induction rest generalizing e with
  | nil => simp
  | cons f rest2 ih =>
    intro x hx
    have hef : e.separator_pos ≤ f.start := (List.chain'_cons.mp hadj).1
    rcases List.mem_cons.mp hx with rfl | hx2
    · exact hef
    · have hf : f.start ≤ f.separator_pos := hb f (by simp)
      have h := ih f hadj.tail (fun y hy => hb y (List.mem_cons_of_mem _ hy)) x hx2
      omega

/-- Membership in the span union, characterized: an offset is covered
exactly when it lies in `[first_anchor.separator_end, len)` and inside
no later instrument's title block `[start, separator_end)`. -/
theorem coveredB_char (text : List Char) (d : DocInfo) (rest : List DocInfo) (k : Nat)
    (hadj : List.Chain' (fun a b : DocInfo => a.separator_pos ≤ b.start) (d :: rest))
    (hstarts : List.Chain' (fun a b : DocInfo => a.start < b.start) (d :: rest))
    (hbound : ∀ x ∈ d :: rest, x.start ≤ x.separator_pos ∧ x.separator_pos ≤ text.length) :
    coveredB text (d :: rest) k = true ↔
      (d.separator_pos ≤ k ∧ k < text.length ∧
        ∀ x ∈ rest, ¬ (x.start ≤ k ∧ k < x.separator_pos)) := by
  induction rest generalizing d with
  | nil =>
    simp [coveredB, spanEndOf]
  | cons e rest2 ih =>
    have hde : d.separator_pos ≤ e.start := (List.chain'_cons.mp hadj).1
    have hd0 : d.start < e.start := (List.chain'_cons.mp hstarts).1
    have he0 : e.start ≠ 0 := by omega
    have hes : e.start ≤ e.separator_pos := (hbound e (by simp)).1
    have hel : e.separator_pos ≤ text.length := (hbound e (by simp)).2
    have hafter : ∀ x ∈ rest2, e.separator_pos ≤ x.start :=
      chainSepBound e rest2 hadj.tail (fun y hy => (hbound y (List.mem_cons_of_mem _ hy)).1)
    have ihe := ih e hadj.tail hstarts.tail (fun y hy => hbound y (List.mem_cons_of_mem _ hy))
    show ((decide (d.separator_pos ≤ k) && decide (k < spanEndOf text (e :: rest2)))
        || coveredB text (e :: rest2) k) = true ↔ _
    simp only [spanEndOf, he0, if_true, ne_eq, not_false_iff, Bool.or_eq_true,
      Bool.and_eq_true, decide_eq_true_eq, ihe, List.forall_mem_cons]
    constructor
    · rintro (⟨h1, h2⟩ | ⟨h1, h2, h3⟩)
      · refine ⟨h1, by omega, ⟨by omega, ?_⟩⟩
        intro x hx
        have := hafter x hx
        omega
      · exact ⟨by omega, h2, ⟨by omega, h3⟩⟩
    · rintro ⟨h1, h2, ⟨hne, hrest2⟩⟩
      rcases Nat.lt_or_ge k e.start with hk | hk
      · exact Or.inl ⟨h1, hk⟩
      · have hk2 : e.separator_pos ≤ k := by
          rcases Nat.lt_or_ge k e.separator_pos with h | h
          · exact absurd ⟨hk, h⟩ hne
          · exact h
        exact Or.inr ⟨hk2, h2, hrest2⟩

/-- Consecutive body spans of a well-formed anchor list never overlap:
each span ends no later than where the next one begins. -/
theorem bodySpans_adjacent (text : List Char) (d : DocInfo) (rest : List DocInfo)
    (hstarts : List.Chain' (fun a b : DocInfo => a.start < b.start) (d :: rest))
    (hbound : ∀ x ∈ d :: rest, x.start ≤ x.separator_pos ∧ x.separator_pos ≤ text.length) :
    List.Chain' (fun s1 s2 : Nat × Nat => s1.2 ≤ s2.1) (bodySpans text (d :: rest)) := by
  induction rest generalizing d with
  | nil => simp [bodySpans]
  | cons e rest2 ih =>
    have hd0 : d.start < e.start := (List.chain'_cons.mp hstarts).1
    have he0 : e.start ≠ 0 := by omega
    have hes : e.start ≤ e.separator_pos := (hbound e (by simp)).1
    have hch := ih e hstarts.tail (fun y hy => hbound y (List.mem_cons_of_mem _ hy))
    show List.Chain' _
      ((d.separator_pos, spanEndOf text (e :: rest2))
        :: (e.separator_pos, spanEndOf text rest2) :: bodySpans text rest2)
    refine List.chain'_cons.mpr ⟨?_, hch⟩
    simp only [spanEndOf, he0, ne_eq, not_false_iff, if_true]
    exact hes

/-- Claim C1 as amended: for a well-formed derived anchor list (starts
strictly increasing, each separator end between its own start and the
next start, spans inside the transcript), an offset is covered by the
union of body spans exactly when it lies in
`[first_anchor.separator_end, len)` and inside no later instrument's
title block `[start, separator_end)`, and consecutive spans never
overlap: the only gaps are the title blocks. -/
theorem c1_amended_coverage (text : List Char) (d : DocInfo) (rest : List DocInfo)
    (hadj : List.Chain' (fun a b : DocInfo => a.separator_pos ≤ b.start) (d :: rest))
    (hstarts : List.Chain' (fun a b : DocInfo => a.start < b.start) (d :: rest))
    (hbound : ∀ x ∈ d :: rest, x.start ≤ x.separator_pos ∧ x.separator_pos ≤ text.length) :
    (∀ k, coveredB text (d :: rest) k = true ↔
      (d.separator_pos ≤ k ∧ k < text.length ∧
        ∀ x ∈ rest, ¬ (x.start ≤ k ∧ k < x.separator_pos)))
    ∧ List.Chain' (fun s1 s2 : Nat × Nat => s1.2 ≤ s2.1) (bodySpans text (d :: rest)) :=
  ⟨fun k => coveredB_char text d rest k hadj hstarts hbound,
   bodySpans_adjacent text d rest hstarts hbound⟩

/-- Witness for the amended C1: offset `15` of the forty-character
transcript lies in the first body span `[10, 20)`. -/
theorem c1_amended_coverage_witness : coveredB c1wText [c1wD0, c1wD1] 15 = true :=
  (((c1_amended_coverage c1wText c1wD0 [c1wD1]
    (List.Chain.cons (by decide) List.Chain.nil)
    (List.Chain.cons (by decide) List.Chain.nil)
    (by decide)).1) 15).mpr (by decide)

/-- Inserting into the stable sort permutes with consing. -/
theorem insertByStart_perm (x : DocInfo) (l : List DocInfo) :
    (insertByStart x l).Perm (x :: l) := by
  induction l with
  | nil => simp [insertByStart]
  | cons y l ih =>
    by_cases h : x.start ≤ y.start
    · simp [insertByStart, h]
    · simp only [insertByStart, h, if_false]
      exact (ih.cons y).trans (List.Perm.swap x y l)

/-- The stable sort permutes its input. -/
theorem sortByStart_perm (l : List DocInfo) : (sortByStart l).Perm l := by
  induction l with
  | nil => simp [sortByStart]
  | cons x l ih => exact (insertByStart_perm x (sortByStart l)).trans (ih.cons x)

/-- Insertion preserves sortedness by `start`. -/
theorem insertByStart_pairwise (x : DocInfo) (l : List DocInfo)
    (h : List.Pairwise (fun a b : DocInfo => a.start ≤ b.start) l) :
    List.Pairwise (fun a b : DocInfo => a.start ≤ b.start) (insertByStart x l) := by
  induction l with
  | nil => simp [insertByStart]
  | cons y l ih =>
    rcases List.pairwise_cons.mp h with ⟨hy, hl⟩
    by_cases hxy : x.start ≤ y.start
    · simp only [insertByStart, hxy, if_true]
      refine List.pairwise_cons.mpr ⟨?_, h⟩
      intro z hz
      rcases List.mem_cons.mp hz with rfl | hz2
      · exact hxy
      · exact le_trans hxy (hy z hz2)
    · simp only [insertByStart, hxy, if_false]
      refine List.pairwise_cons.mpr ⟨?_, ih hl⟩
      intro z hz
      rcases List.mem_cons.mp ((insertByStart_perm x l).subset hz) with rfl | hz2
      · omega
      · exact hy z hz2

/-- The sort is sorted (non-strictly) by `start`. -/
theorem sortByStart_pairwise (l : List DocInfo) :
    List.Pairwise (fun a b : DocInfo => a.start ≤ b.start) (sortByStart l) := by
  induction l with
  | nil => simp [sortByStart]
  | cons x l ih => exact insertByStart_pairwise x (sortByStart l) ih

/-- The duplicate-removal loop returns a sublist. -/
theorem dedupBySep_sublist (l : List DocInfo) :
    ∀ last, (dedupBySep l last).Sublist l := by
  induction l with
  | nil => intro last; simp [dedupBySep]
  | cons d rest ih =>
    intro last
    by_cases h : some d.separator_pos = last
    · simp only [dedupBySep, h, if_true]
      exact (ih last).cons d
    · simp only [dedupBySep, h, if_false]
      exact (ih (some d.separator_pos)).cons₂ d

/-- Every separator span starts at or after `pos + skip` and is proper. -/
theorem findSepAux_bounds : ∀ (l : List Char) (pos skip : Nat),
    ∀ x ∈ findSepAux l pos skip, pos + skip ≤ x.1 ∧ x.1 < x.2 := by
  intro l
  induction l with
  | nil => intro pos skip x hx; simp [findSepAux] at hx
  | cons c rest ih =>
    intro pos skip x hx
    match skip with
    | skip' + 1 =>
      have h := ih (pos + 1) skip' x (by simpa [findSepAux] using hx)
      omega
    | 0 =>
      simp only [findSepAux] at hx
      split at hx
      · split at hx
        · rcases List.mem_cons.mp hx with rfl | hx2
          · constructor <;> omega
          · have h := ih (pos + 1) _ x hx2
            omega
        · have h := ih (pos + 1) _ x hx
          omega
      · have h := ih (pos + 1) 0 x hx
        omega

/-- Separator spans have strictly increasing end offsets. -/
theorem findSepAux_pairwiseEnds : ∀ (l : List Char) (pos skip : Nat),
    List.Pairwise (fun a b : Nat × Nat => a.2 < b.2) (findSepAux l pos skip) := by
  intro l
  induction l with
  | nil => intro pos skip; simp [findSepAux]
  | cons c rest ih =>
    intro pos skip
    match skip with
    | skip' + 1 => simpa [findSepAux] using ih (pos + 1) skip'
    | 0 =>
      simp only [findSepAux]
      split
      · split
        · refine List.pairwise_cons.mpr ⟨?_, ih (pos + 1) _⟩
          intro b hb
          have h := findSepAux_bounds rest (pos + 1) _ b hb
          omega
        · exact ih (pos + 1) _
      · exact ih (pos + 1) 0

/-- Characterization of the priority walk over the pattern list: a hit
is the last match of some pattern `i`, every earlier pattern having no
match at all in the window. -/
theorem titleSearchIn_spec : ∀ (ps : List (List (List Char))) (w : List Char) (m : Nat × Nat),
    titleSearchIn ps w = some m →
    ∃ i, i < ps.length ∧ (finditerPat (ps.getD i []) w).getLast? = some m
      ∧ ∀ j, j < i → finditerPat (ps.getD j []) w = [] := by
  intro ps
  induction ps with
  | nil => intro w m h; simp [titleSearchIn] at h
  | cons p ps ih =>
    intro w m h
    cases hl : (finditerPat p w).getLast? with
    | some m2 =>
      simp only [titleSearchIn, hl] at h
      refine ⟨0, by simp, ?_, ?_⟩
      · simpa [h] using hl
      · intro j hj
        omega
    | none =>
      simp only [titleSearchIn, hl] at h
      obtain ⟨i, hi, hlast, hprev⟩ := ih w m h
      refine ⟨i + 1, by simpa using Nat.succ_lt_succ hi, by simpa using hlast, ?_⟩
      intro j hj
      cases j with
      | zero => simpa using List.getLast?_eq_none_iff.mp hl
      | succ j2 => simpa using hprev j2 (by omega)

/-- Shape of a successful per-separator document search: the record's
separator is the separator's end and its start is the window base plus
the title-search hit. -/
theorem docForSep_eq_some (text : List Char) (se : Nat × Nat) (d : DocInfo)
    (h : docForSep text se = some d) :
    d.separator_pos = se.2
    ∧ ∃ m, titleSearch (sliceL text (se.1 - 2000) se.1) = some m
        ∧ d.start = (se.1 - 2000) + m.1 := by
  unfold docForSep at h
  simp only at h
  split at h
  · exact Option.noConfusion h
  · rename_i m heq
    split at h
    · exact Option.noConfusion h
    · have h2 := Option.some.inj h
      exact ⟨by rw [← h2], m, heq, by rw [← h2]⟩

set_option maxRecDepth 8000 in
/-- Counterexample to claim C4: in the lookback window of `exC4Text`'s
single separator, the last occurrence of an instrument-type keyword is
the order pattern's match at offset `30`, yet the emitted anchor starts
at offset `0` — the last match of the decree pattern, which is tried
first. -/
theorem c4_counterexample :
    findSeparators exC4Text = [(46, 50)]
    ∧ (find_all_documents exC4Text).map (fun d => d.start) = [0]
    ∧ (finditerPat (titlePatterns.getD 4 []) (sliceL exC4Text 0 46)).getLast? = some (30, 46)
    ∧ (30 : Nat) ≠ 0 := by
  decide

/-- Claim C4 as amended: the anchor list is sorted by `start`; every
anchor comes from a separator, searching only the window of up to 2000
characters before it, and its start is the last match of the first
title pattern (in the fixed priority order) that matches in that
window; a separator whose window matches no pattern contributes no
anchor (and in particular no error); distinct anchors always carry
distinct separators, so the duplicate collapse keeps them all. -/
theorem c4_amended_anchor_rules (text : List Char) :
    List.Pairwise (fun a b : DocInfo => a.start ≤ b.start) (find_all_documents text)
    ∧ List.Pairwise (fun a b : DocInfo => a.separator_pos ≠ b.separator_pos)
        (find_all_documents text)
    ∧ (∀ d ∈ find_all_documents text, ∃ se ∈ findSeparators text,
        d.separator_pos = se.2
        ∧ ∃ m, titleSearch (sliceL text (se.1 - 2000) se.1) = some m
            ∧ d.start = (se.1 - 2000) + m.1
            ∧ ∃ i, i < titlePatterns.length
                ∧ (finditerPat (titlePatterns.getD i []) (sliceL text (se.1 - 2000) se.1)).getLast?
                    = some m
                ∧ ∀ j, j < i →
                    finditerPat (titlePatterns.getD j []) (sliceL text (se.1 - 2000) se.1) = [])
    ∧ (∀ se ∈ findSeparators text, titleSearch (sliceL text (se.1 - 2000) se.1) = none →
        ∀ d ∈ find_all_documents text, d.separator_pos ≠ se.2) := by
  refine ⟨?_, ?_, ?_, ?_⟩
  · exact List.Pairwise.sublist (dedupBySep_sublist _ none) (sortByStart_pairwise _)
  · have hseps := findSepAux_pairwiseEnds text 0 0
    have h1 : List.Pairwise (fun a b : DocInfo => a.separator_pos ≠ b.separator_pos)
        ((findSeparators text).filterMap (docForSep text)) := by
      refine List.Pairwise.filterMap (docForSep text) ?_ hseps
      intro se1 se2 hlt d1 hd1 d2 hd2
      have e1 := (docForSep_eq_some text se1 d1 (Option.mem_def.mp hd1)).1
      have e2 := (docForSep_eq_some text se2 d2 (Option.mem_def.mp hd2)).1
      omega
    have h2 := (List.Perm.pairwise_iff (fun h e => h e.symm) (sortByStart_perm _).symm).mp h1
    exact List.Pairwise.sublist (dedupBySep_sublist _ none) h2
  · intro d hd
    have h1 : d ∈ sortByStart ((findSeparators text).filterMap (docForSep text)) :=
      (dedupBySep_sublist _ none).subset hd
    have h2 : d ∈ (findSeparators text).filterMap (docForSep text) :=
      (sortByStart_perm _).subset h1
    obtain ⟨se, hse, hds⟩ := List.mem_filterMap.mp h2
    obtain ⟨hsep, m, hts, hstart⟩ := docForSep_eq_some text se d hds
    obtain ⟨i, hi, hlast, hprev⟩ := titleSearchIn_spec titlePatterns _ m hts
    exact ⟨se, hse, hsep, m, hts, hstart, i, hi, hlast, hprev⟩
  · intro se hse hnone d hd hcontra
    have h1 : d ∈ sortByStart ((findSeparators text).filterMap (docForSep text)) :=
      (dedupBySep_sublist _ none).subset hd
    have h2 : d ∈ (findSeparators text).filterMap (docForSep text) :=
      (sortByStart_perm _).subset h1
    obtain ⟨se2, hse2, hds⟩ := List.mem_filterMap.mp h2
    obtain ⟨hsep, m, hts, _⟩ := docForSep_eq_some text se2 d hds
    have hne2 : List.Pairwise (fun a b : Nat × Nat => a.2 ≠ b.2) (findSeparators text) :=
      (findSepAux_pairwiseEnds text 0 0).imp (by intro a b hab; omega)
    have heq : se2 = se := by
      by_contra hneq
      have hsym : Symmetric (fun a b : Nat × Nat => a.2 ≠ b.2) :=
        fun a b hab e => hab e.symm
      exact List.Pairwise.forall hsym hne2 hse2 hse hneq (hsep ▸ hcontra)
    rw [heq, hnone] at hts
    exact Option.noConfusion hts

set_option maxRecDepth 8000 in
/-- Witness for the amended C4 at the single document of `exC4Text`. -/
theorem c4_amended_anchor_rules_witness :
    ∃ se ∈ findSeparators exC4Text,
      ((find_all_documents exC4Text).getD 0 default).separator_pos = se.2
      ∧ ∃ m, titleSearch (sliceL exC4Text (se.1 - 2000) se.1) = some m
          ∧ ((find_all_documents exC4Text).getD 0 default).start = (se.1 - 2000) + m.1
          ∧ ∃ i, i < titlePatterns.length
              ∧ (finditerPat (titlePatterns.getD i []) (sliceL exC4Text (se.1 - 2000) se.1)).getLast?
                  = some m
              ∧ ∀ j, j < i →
                  finditerPat (titlePatterns.getD j []) (sliceL exC4Text (se.1 - 2000) se.1) = [] :=
  (c4_amended_anchor_rules exC4Text).2.2.1 ((find_all_documents exC4Text).getD 0 default)
    (by decide)

/-- Removing a literal succeeds exactly on lists extending it. -/
theorem dropPrefixQ_eq_some_iff : ∀ (p l r : List Char), dropPrefixQ p l = some r ↔ l = p ++ r := by
  intro p
  induction p with
  | nil => intro l r; simp [dropPrefixQ]
  | cons x p ih =>
    intro l r
    cases l with
    | nil => simp [dropPrefixQ]
    | cons c cs =>
      by_cases hx : x = c
      · simp [dropPrefixQ, hx, ih]
      · simp only [dropPrefixQ, hx, if_false, List.cons_append, List.cons.injEq]
        constructor
        · intro h
          exact Option.noConfusion h
        · rintro ⟨h1, _⟩
          exact absurd h1.symm hx

/-- `takeWhile`/`dropWhile` on an all-satisfying block followed by a
failing head. -/
theorem takeWhile_block (p : Char → Bool) (ds : List Char) (y : Char) (r : List Char)
    (h : ds.all p = true) (hy : p y = false) :
    (ds ++ y :: r).takeWhile p = ds ∧ (ds ++ y :: r).dropWhile p = y :: r := by
  induction ds with
  | nil => simp [List.takeWhile_cons, List.dropWhile_cons, hy]
  | cons a ds ih =>
    simp only [List.all_cons, Bool.and_eq_true] at h
    simp [List.takeWhile_cons, List.dropWhile_cons, h.1, ih h.2]

/-- A page-marker match at the head of `l` is exactly a marker literal
being a prefix of `l`. -/
theorem matchMarkerAt_eq_some_iff (l : List Char) (v n : Nat) :
    matchMarkerAt l = some (v, n) ↔
    ∃ ds, ds ≠ [] ∧ ds.all Char.isDigit = true ∧ v = digitsToNat ds ∧ n = 15 + ds.length
      ∧ markerOpen ++ (ds ++ markerClose) <+: l := by
  constructor
  · intro h
    unfold matchMarkerAt at h
    cases h1 : dropPrefixQ markerOpen l with
    | none => rw [h1] at h; exact Option.noConfusion h
    | some r1 =>
      rw [h1] at h
      simp only at h
      split at h
      · exact Option.noConfusion h
      · rename_i hne
        split at h
        · exact Option.noConfusion h
        · rename_i r3 h2
          have hl : l = markerOpen ++ r1 := (dropPrefixQ_eq_some_iff _ _ _).mp h1
          have hr2 : r1.dropWhile Char.isDigit = markerClose ++ r3 :=
            (dropPrefixQ_eq_some_iff _ _ _).mp h2
          have hsplit : r1 = r1.takeWhile Char.isDigit ++ (markerClose ++ r3) := by
            rw [← hr2]
            exact (List.takeWhile_append_dropWhile Char.isDigit r1).symm
          have hvn := Option.some.inj h
          refine ⟨r1.takeWhile Char.isDigit, hne, List.all_takeWhile, ?_, ?_, ?_⟩
          · exact congrArg Prod.fst hvn.symm
          · exact congrArg Prod.snd hvn.symm
          · refine ⟨r3, ?_⟩
            conv_rhs => rw [hl]
            conv_rhs => rw [hsplit]
            simp [List.append_assoc]
  · rintro ⟨ds, hne, hdig, hv, hn, t, happ⟩
    subst happ
    unfold matchMarkerAt
    have h1 : dropPrefixQ markerOpen (markerOpen ++ (ds ++ markerClose) ++ t)
        = some (ds ++ (markerClose ++ t)) := by
      rw [dropPrefixQ_eq_some_iff]
      simp [List.append_assoc]
    rw [h1]
    simp only
    have hblock := takeWhile_block Char.isDigit ds ' ' (['=', '=', '=', '='] ++ t) hdig (by decide)
    have hcl : ds ++ (markerClose ++ t) = ds ++ ' ' :: (['=', '=', '=', '='] ++ t) := rfl
    rw [hcl, hblock.1, hblock.2, if_neg hne]
    have h2 : dropPrefixQ markerClose (' ' :: (['=', '=', '=', '='] ++ t)) = some t := by
      rw [dropPrefixQ_eq_some_iff]
      rfl
    rw [h2, hv, hn]

/-- A head match survives appending text on the right. -/
theorem matchMarker_append (l s : List Char) (v n : Nat)
    (h : matchMarkerAt l = some (v, n)) : matchMarkerAt (l ++ s) = some (v, n) := by
  rw [matchMarkerAt_eq_some_iff] at h ⊢
  obtain ⟨ds, h1, h2, h3, h4, h5⟩ := h
  exact ⟨ds, h1, h2, h3, h4, h5.trans (List.prefix_append l s)⟩

/-- A head match fits inside the list it matched. -/
theorem matchMarker_length_le (l : List Char) (v n : Nat)
    (h : matchMarkerAt l = some (v, n)) : n ≤ l.length := by
  rw [matchMarkerAt_eq_some_iff] at h
  obtain ⟨ds, _, _, _, h4, h5⟩ := h
  have hle := h5.length_le
  simp only [List.length_append, markerOpen, markerClose, List.length_cons,
    List.length_nil] at hle
  omega

/-- A match of the compound list that fits inside the left part already
matches the left part. -/
theorem matchMarker_of_append (l s : List Char) (v n : Nat)
    (h : matchMarkerAt (l ++ s) = some (v, n)) (hn : n ≤ l.length) :
    matchMarkerAt l = some (v, n) := by
  rw [matchMarkerAt_eq_some_iff] at h ⊢
  obtain ⟨ds, h1, h2, h3, h4, h5⟩ := h
  refine ⟨ds, h1, h2, h3, h4, ?_⟩
  refine List.prefix_of_prefix_length_le h5 (List.prefix_append l s) ?_
  simp only [List.length_append, markerOpen, markerClose, List.length_cons, List.length_nil]
  omega

/-- The marker opening never recurs at a positive offset inside a
marker's own text. -/
theorem markerOpen_not_inside (ds : List Char) (hdig : ds.all Char.isDigit = true)
    (o : Nat) (ho : 1 ≤ o) :
    ¬ markerOpen <+: (markerOpen ++ (ds ++ markerClose)).drop o := by
  intro hpre
  have hdrop : (markerOpen ++ (ds ++ markerClose)).drop o
      = markerOpen.drop o ++ (ds.drop (o - 10) ++ markerClose.drop (o - 10 - ds.length)) := by
    rw [List.drop_append_eq_append_drop, List.drop_append_eq_append_drop]
    have h10 : markerOpen.length = 10 := rfl
    rw [h10, Nat.sub_sub]
  rcases Nat.lt_or_ge o 10 with h10 | h10
  · rw [hdrop] at hpre
    interval_cases o <;>
      simp [markerOpen, markerClose, List.cons_prefix_cons] at hpre
  · rcases Nat.lt_or_ge o (10 + ds.length) with hds | hds
    · have hne2 : ds.drop (o - 10) ≠ [] := by
        intro he
        have hle := List.drop_eq_nil_iff.mp he
        omega
      obtain ⟨y, t, hyt⟩ := List.exists_cons_of_ne_nil hne2
      have hy : y ∈ ds := by
        have hmem : y ∈ ds.drop (o - 10) := by
          rw [hyt]
          exact List.mem_cons_self y t
        exact List.drop_subset _ _ hmem
      have hydig : y.isDigit = true := List.all_eq_true.mp hdig y hy
      rw [hdrop] at hpre
      have ho10 : markerOpen.drop o = [] := by
        apply List.drop_eq_nil_of_le
        simp only [markerOpen, List.length_cons, List.length_nil]
        omega
      rw [ho10, hyt] at hpre
      simp only [List.nil_append, List.cons_append] at hpre
      have hhead := (List.cons_prefix_cons.mp hpre).1
      rw [← hhead] at hydig
      exact absurd hydig (by decide)
    · have hlen := hpre.length_le
      have h2 : ((markerOpen ++ (ds ++ markerClose)).drop o).length
          = 10 + (ds.length + 5) - o := by
        simp [markerOpen, markerClose]
        omega
      have h1 : markerOpen.length = 10 := rfl
      rw [h2, h1] at hlen
      omega

/-- No page marker matches at a positive offset inside a marker. -/
theorem no_marker_match_inside (ds : List Char) (hdig : ds.all Char.isDigit = true)
    (o : Nat) (ho : 1 ≤ o) :
    matchMarkerAt ((markerOpen ++ (ds ++ markerClose)).drop o) = none := by
  cases hm : matchMarkerAt ((markerOpen ++ (ds ++ markerClose)).drop o) with
  | none => rfl
  | some p =>
    obtain ⟨v, n⟩ := p
    rw [matchMarkerAt_eq_some_iff] at hm
    obtain ⟨ds2, _, _, _, _, hpre⟩ := hm
    have hop : markerOpen <+: (markerOpen ++ (ds ++ markerClose)).drop o :=
      (List.prefix_append markerOpen (ds2 ++ markerClose)).trans hpre
    exact absurd hop (markerOpen_not_inside ds hdig o ho)

/-- A scan over a list with no match at any offset yields nothing. -/
theorem scanMarkersAux_eq_nil (l : List Char)
    (h : ∀ k, matchMarkerAt (l.drop k) = none) :
    ∀ skip, scanMarkersAux l skip = [] := by
  induction l with
  | nil => intro skip; simp [scanMarkersAux]
  | cons c rest ih =>
    intro skip
    have hrest : ∀ k, matchMarkerAt (rest.drop k) = none := by
      intro k
      have hk := h (k + 1)
      simpa using hk
    match skip with
    | skip2 + 1 => simpa [scanMarkersAux] using ih hrest skip2
    | 0 =>
      have h0 := h 0
      simp only [List.drop_zero] at h0
      simp [scanMarkersAux, h0, ih hrest 0]

/-- The marker scan of a list is a prefix of the scan of any extension:
extending the transcript can only complete or add markers at the end. -/
theorem scanMarkersAux_append (s : List Char) :
    ∀ (l : List Char) (skip : Nat), scanMarkersAux l skip <+: scanMarkersAux (l ++ s) skip := by
  intro l
  induction l with
  | nil =>
    intro skip
    simp [scanMarkersAux]
  | cons c rest ih =>
    intro skip
    match skip with
    | skip2 + 1 => exact ih skip2
    | 0 =>
      cases hm : matchMarkerAt (c :: rest) with
      | some p =>
        obtain ⟨v, n⟩ := p
        have hm2 : matchMarkerAt (c :: (rest ++ s)) = some (v, n) := by
          have happ := matchMarker_append (c :: rest) s v n hm
          simpa using happ
        rw [show scanMarkersAux (c :: rest) 0 = v :: scanMarkersAux rest (n - 1) from by
          simp [scanMarkersAux, hm]]
        rw [show scanMarkersAux ((c :: rest) ++ s) 0 = v :: scanMarkersAux (rest ++ s) (n - 1) from by
          simp [scanMarkersAux, hm2]]
        exact List.cons_prefix_cons.mpr ⟨rfl, ih (n - 1)⟩
      | none =>
        cases hm2 : matchMarkerAt (c :: (rest ++ s)) with
        | none =>
          rw [show scanMarkersAux (c :: rest) 0 = scanMarkersAux rest 0 from by
            simp [scanMarkersAux, hm]]
          rw [show scanMarkersAux ((c :: rest) ++ s) 0 = scanMarkersAux (rest ++ s) 0 from by
            simp [scanMarkersAux, hm2]]
          exact ih 0
        | some p =>
          obtain ⟨v, n⟩ := p
          have hn : ¬ n ≤ (c :: rest).length := by
            intro hle
            have hml := matchMarker_of_append (c :: rest) s v n (by simpa using hm2) hle
            rw [hm] at hml
            exact Option.noConfusion hml
          have hm3 := hm2
          rw [matchMarkerAt_eq_some_iff] at hm3
          obtain ⟨ds, hne, hdig, hv, hn15, hpre⟩ := hm3
          have hcr : (c :: rest) <+: markerOpen ++ (ds ++ markerClose) := by
            refine List.prefix_of_prefix_length_le ?_ hpre ?_
            · exact ⟨s, rfl⟩
            · simp only [List.length_append, markerOpen, markerClose, List.length_cons,
                List.length_nil]
              simp only [List.length_cons] at hn
              omega
          have hrest_none : ∀ k, matchMarkerAt (rest.drop k) = none := by
            intro k
            cases hmk : matchMarkerAt (rest.drop k) with
            | none => rfl
            | some q =>
              obtain ⟨v2, n2⟩ := q
              have hcr2 : (c :: rest)
                  = (markerOpen ++ (ds ++ markerClose)).take (c :: rest).length :=
                List.prefix_iff_eq_take.mp hcr
              have heq : rest.drop k
                  = ((markerOpen ++ (ds ++ markerClose)).drop (k + 1)).take
                      ((c :: rest).length - (k + 1)) := by
                calc rest.drop k = (c :: rest).drop (k + 1) := rfl
                  _ = ((markerOpen ++ (ds ++ markerClose)).take (c :: rest).length).drop (k + 1) := by
                      rw [← hcr2]
                  _ = ((markerOpen ++ (ds ++ markerClose)).drop (k + 1)).take
                      ((c :: rest).length - (k + 1)) := List.drop_take _ _ _
              rw [heq] at hmk
              rw [matchMarkerAt_eq_some_iff] at hmk
              obtain ⟨ds3, a1, a2, a3, a4, a5⟩ := hmk
              have hfull : matchMarkerAt ((markerOpen ++ (ds ++ markerClose)).drop (k + 1))
                  = some (v2, n2) := by
                rw [matchMarkerAt_eq_some_iff]
                refine ⟨ds3, a1, a2, a3, a4, a5.trans ?_⟩
                exact ⟨_, List.take_append_drop _ _⟩
              rw [no_marker_match_inside ds hdig (k + 1) (by omega)] at hfull
              exact Option.noConfusion hfull
          rw [show scanMarkersAux (c :: rest) 0 = scanMarkersAux rest 0 from by
            simp [scanMarkersAux, hm]]
          rw [scanMarkersAux_eq_nil rest hrest_none 0]
          exact List.nil_prefix

/-- Monotonicity of the scan under prefix truncation. -/
theorem scanMarkers_take_mono (t : List Char) (a b : Nat) (hab : a ≤ b) :
    scanMarkers (t.take a) <+: scanMarkers (t.take b) := by
  have h1 : t.take b = t.take a ++ (t.take b).drop a := by
    calc t.take b = (t.take b).take a ++ (t.take b).drop a :=
          (List.take_append_drop a (t.take b)).symm
      _ = t.take a ++ (t.take b).drop a := by rw [List.take_take, Nat.min_eq_left hab]
  rw [h1]
  exact scanMarkersAux_append _ (t.take a) 0

/-- The scan of any prefix is a prefix of the full scan. -/
theorem scanMarkers_take_full (t : List Char) (b : Nat) :
    scanMarkers (t.take b) <+: scanMarkers t := by
  conv_rhs => rw [← List.take_append_drop b t]
  exact scanMarkersAux_append _ _ 0

/-- `lastD` steps over a cons. -/
theorem lastD_cons (x y : Nat) (l : List Nat) : lastD x (y :: l) = lastD y l := rfl

/-- `lastD` returns the last element when there is one. -/
theorem lastD_getLast (L : List Nat) : ∀ (x v : Nat), L.getLast? = some v → lastD x L = v := by
  induction L with
  | nil => intro x v h; exact Option.noConfusion h
  | cons a L ih =>
    intro x v h
    cases L with
    | nil =>
      simp only [List.getLast?_singleton, Option.some.injEq] at h
      simp [lastD, h]
    | cons b L2 =>
      rw [List.getLast?_cons_cons] at h
      rw [lastD_cons]
      exact ih a v h

/-- `extract_page_number` as a fold over the scan. -/
theorem extract_page_number_eq_lastD (cur : Nat) (l : List Char) :
    extract_page_number cur l = lastD cur (scanMarkers l) := by
  unfold extract_page_number
  cases h : (scanMarkers l).getLast? with
  | none => rw [List.getLast?_eq_none_iff.mp h]; rfl
  | some v => exact (lastD_getLast _ cur v h).symm

/-- Along a `≤`-chain, the default is below any truncated last value. -/
theorem chain_le_lastD_take (x : Nat) (S : List Nat) (h : List.Chain (· ≤ ·) x S) :
    ∀ j, x ≤ lastD x (S.take j) := by
  induction S generalizing x with
  | nil => intro j; simp [lastD]
  | cons a S ih =>
    intro j
    cases h with
    | cons hxa hc =>
      cases j with
      | zero => simp [lastD]
      | succ j2 =>
        rw [List.take_succ_cons, lastD_cons]
        exact le_trans hxa (ih a hc j2)

/-- Along a `≤`-chain, truncated last values are monotone in the cut. -/
theorem chain_lastD_take_mono (x : Nat) (S : List Nat) (h : List.Chain (· ≤ ·) x S) :
    ∀ n m, n ≤ m → lastD x (S.take n) ≤ lastD x (S.take m) := by
  induction S generalizing x with
  | nil => intro n m _; simp [lastD]
  | cons a S ih =>
    intro n m hnm
    cases h with
    | cons hxa hc =>
      cases n with
      | zero =>
        simp only [List.take_zero]
        show x ≤ lastD x ((a :: S).take m)
        exact chain_le_lastD_take x (a :: S) (List.Chain.cons hxa hc) m
      | succ n2 =>
        cases m with
        | zero => omega
        | succ m2 =>
          rw [List.take_succ_cons, List.take_succ_cons, lastD_cons, lastD_cons]
          exact ih a hc n2 m2 (by omega)

/-- Counterexample to claim C8: `exC8Text` announces page 2 and then
page 1, so `PageIndex` decreases from offset 16 to offset 33. -/
theorem c8_counterexample :
    (16 : Nat) < 33 ∧ ¬ (pageIndex exC8Text 16 ≤ pageIndex exC8Text 33) := by
  decide

/-- Claim C8 as amended: `PageIndex` is monotone for every transcript
whose announced page numbers are at least 1 and nondecreasing in order
of appearance (as a `≤`-chain from the default page 1). -/
theorem c8_amended_monotone (text : List Char) (a b : Nat) (hab : a < b)
    (hmono : List.Chain (· ≤ ·) 1 (scanMarkers text)) :
    pageIndex text a ≤ pageIndex text b := by
  unfold pageIndex
  rw [extract_page_number_eq_lastD, extract_page_number_eq_lastD]
  have hu : scanMarkers (text.take a) <+: scanMarkers (text.take b) :=
    scanMarkers_take_mono text a b (by omega)
  have hw : scanMarkers (text.take b) <+: scanMarkers text := scanMarkers_take_full text b
  have hu2 : scanMarkers (text.take a)
      = (scanMarkers text).take (scanMarkers (text.take a)).length :=
    List.prefix_iff_eq_take.mp (hu.trans hw)
  have hw2 : scanMarkers (text.take b)
      = (scanMarkers text).take (scanMarkers (text.take b)).length :=
    List.prefix_iff_eq_take.mp hw
  rw [hu2, hw2]
  exact chain_lastD_take_mono 1 (scanMarkers text) hmono _ _ hu.length_le

/-- Witness for the amended C8 on a transcript announcing pages 1 then 3. -/
theorem c8_amended_monotone_witness : pageIndex c8wText 20 ≤ pageIndex c8wText 34 :=
  c8_amended_monotone c8wText 20 34 (by decide)
    (List.Chain.cons (by decide) (List.Chain.cons (by decide) List.Chain.nil))

/-- Claim C10 (confirmed): when no page marker occurs before an offset
the page-attribution returns the default page 1, and on a transcript
with zero page markers every emitted chunk carries page number 1 — a
positive page number. -/
theorem c10_default_page (filename text : List Char) :
    (∀ p, scanMarkers (text.take p) = [] → extract_page_number 1 (text.take p) = 1)
    ∧ (scanMarkers text = [] →
        ∀ c ∈ segmentText filename text, c.page_number = 1 ∧ 0 < c.page_number) := by
  constructor
  · intro p hp
    unfold extract_page_number
    rw [hp]
    rfl
  · intro h0 c hc
    unfold segmentText segment_file at hc
    simp only at hc
    obtain ⟨L, hL, hcL⟩ := List.mem_flatten.mp hc
    obtain ⟨i, _, hLi⟩ := List.mem_map.mp hL
    rw [← hLi] at hcL
    unfold chunksForDoc at hcL
    cases hdoc : (find_all_documents text)[i]? with
    | none =>
      rw [hdoc] at hcL
      exact absurd hcL (by simp)
    | some doc =>
      rw [hdoc] at hcL
      simp only at hcL
      obtain ⟨a, _, hac⟩ := List.mem_map.mp hcL
      have hpre : scanMarkers (text.take doc.start) = [] := by
        have hh := scanMarkers_take_full text doc.start
        rw [h0] at hh
        exact List.prefix_nil.mp hh
      have hpage : extract_page_number initSegmenter.current_page (text.take doc.start) = 1 := by
        unfold extract_page_number
        rw [hpre]
        rfl
      rw [← hac]
      refine ⟨hpage, ?_⟩
      show 0 < extract_page_number initSegmenter.current_page (text.take doc.start)
      rw [hpage]
      omega

set_option maxRecDepth 8000 in
/-- Witness for C10: the (marker-free) transcript `exC10Text` yields a
chunk, and it carries page number 1. -/
theorem c10_default_page_witness :
    ((segmentText exFileName exC10Text).getD 0 default).page_number = 1
    ∧ 0 < ((segmentText exFileName exC10Text).getD 0 default).page_number :=
  (c10_default_page exFileName exC10Text).2 (by decide)
    ((segmentText exFileName exC10Text).getD 0 default) (by decide)

/-- Claim C3 (confirmed): a candidate anchor whose 50-character
preceding context contains a citation marker is discarded by
`get_all_anchors` — no anchor in its output starts at that position —
and every record `process_file` emits is generated from one of the
surviving anchors, so no emitted instrument starts there either. -/
theorem c3_citation_filter (fname jdate content : List Char) (cands : List (Nat × Nat))
    (p : Nat) (hp : arIsCitation content p = true) :
    (∀ a ∈ get_all_anchors content cands, a.start ≠ p)
    ∧ (∀ r ∈ process_file fname jdate content cands,
        ∃ i a, (get_all_anchors content cands)[i]? = some a ∧ a.start ≠ p
          ∧ arRecordFor fname jdate content (get_all_anchors content cands) i = some r) := by
  have hanch : ∀ a ∈ get_all_anchors content cands, a.start ≠ p := by
    intro a ha
    obtain ⟨cnd, _, hcnd⟩ := List.mem_filterMap.mp ha
    simp only at hcnd
    split at hcnd
    · exact Option.noConfusion hcnd
    · rename_i hcit
      have hstart : a.start = cnd.1 := by
        have h2 := Option.some.inj hcnd
        rw [← h2]
      intro hap
      rw [hstart] at hap
      rw [hap] at hcit
      exact hcit hp
  refine ⟨hanch, ?_⟩
  intro r hr
  obtain ⟨i, _, hrec⟩ := List.mem_filterMap.mp hr
  cases hai : (get_all_anchors content cands)[i]? with
  | none =>
    unfold arRecordFor at hrec
    rw [hai] at hrec
    exact Option.noConfusion hrec
  | some a =>
    have hmem : a ∈ get_all_anchors content cands := List.getElem?_mem hai
    exact ⟨i, a, hai, hanch a hmem, hrec⟩

/-- Witness for C3: the candidate at offset 6 of `exC3Text` (preceded
by `Vu le `) survives neither anchoring nor extraction. -/
theorem c3_citation_filter_witness :
    arIsCitation exC3Text 6 = true
    ∧ ∀ a ∈ get_all_anchors exC3Text [(6, 30)], a.start ≠ 6 :=
  ⟨by decide, (c3_citation_filter [] [] exC3Text [(6, 30)] 6 (by decide)).1⟩

/-- Claim C9 (confirmed): the segmenter is deterministic.  Its only
mutable state, `current_page`, is never written, so running
`segment_file` again on the same transcript — threading the state of
the first run — returns the identical chunk list. -/
theorem c9_deterministic (st : SegmenterState) (filename full_text : List Char) :
    (segment_file (segment_file st filename full_text).2 filename full_text).1
      = (segment_file st filename full_text).1
    ∧ (segment_file st filename full_text).2 = st :=
  ⟨rfl, rfl⟩

end Seg

